import Mathlib

/-!
Verification of the price-simulation and portfolio-accounting core of the
investment-game repository.

The JavaScript source is shallowly embedded: numbers are exact rationals
(IEEE rounding and NaN arithmetic are out of scope; a dedicated `JsNum`
type is used where division by zero is the point of a claim), object
fields become structure fields, in-place mutation becomes explicit state
passing, and `throw` becomes an error value returned together with the
state at the moment of the throw.
-/

namespace InvestGame

/-- Models the JS idiom `array.slice(-k)` (for `k ≥ 1`): the last `k`
elements of the list, the whole list when it is shorter than `k`. -/
def sliceLast (k : ℕ) (l : List α) : List α := l.drop (l.length - k)

/-!
## Indicator Library

Embedding of `Indicators` (src/unnamed/part_004); `Calculations`
(src/unnamed/part_008) contains byte-identical copies of `calculateSMA`
and `calculateRSI`, so the same definitions model both.
-/

/-- Embeds `Indicators.calculateSMA` (part_004 lines 11-15): mean of the
last `len` prices, `null` when there is not enough data.  The division is
by the `length` parameter, exactly as in the source. -/
def calculateSMA (prices : List ℚ) (len : ℕ) : Option ℚ :=
  if prices.length < len then none
  else some ((sliceLast len prices).sum / (len : ℚ))

/-- Embeds `Indicators.calculateEMA` (part_004 lines 23-37): seed with the
SMA of the first `len` prices, then fold the smoothing update
`ema = (price - ema) * k + ema` over the remaining prices. -/
def calculateEMA (prices : List ℚ) (len : ℕ) : Option ℚ :=
  if prices.length < len then none
  else
    let k : ℚ := 2 / ((len : ℚ) + 1)
    match calculateSMA (prices.take len) len with
    | none => none
    | some ema0 => some ((prices.drop len).foldl (fun ema p => (p - ema) * k + ema) ema0)

/-- The sample-to-sample deltas over the trailing `len + 1` prices, as
built by `calculateRSI` (part_004 lines 48-50): the source maps each
window element to `price - arr[i-1]` (with a dummy 0 at index 0) and then
drops the first entry; zipping the window shifted by one against itself
produces exactly that list of differences. -/
def rsiChanges (prices : List ℚ) (len : ℕ) : List ℚ :=
  let w := sliceLast (len + 1) prices
  List.zipWith (fun a b => a - b) (w.drop 1) w

/-- Embeds `Indicators.calculateRSI` (part_004 lines 45-63, identical in
part_008 lines 8-26): split the window deltas into gains and losses,
return 100 when there are no losses, 0 when there are losses but no
gains, otherwise the clamped RSI formula. -/
def calculateRSI (prices : List ℚ) (len : ℕ) : Option ℚ :=
  if prices.length < len + 1 then none
  else
    let changes := rsiChanges prices len
    let gains := changes.filter (fun c => 0 < c)
    let losses := (changes.filter (fun c => c < 0)).map (fun c => |c|)
    if losses.length = 0 then some 100
    else if gains.length = 0 then some 0
    else
      let avgGain := gains.sum / (len : ℚ)
      let avgLoss := losses.sum / (len : ℚ)
      let rs := avgGain / avgLoss
      some (min 100 (max 0 (100 - 100 / (1 + rs))))

/-- Result record of `Indicators.calculateMACD`. -/
structure MACDResult where
  macd : ℚ
  signal : ℚ
  histogram : ℚ
deriving DecidableEq, Repr

/-- Embeds `Indicators.calculateMACD` (part_004 lines 73-95): the MACD
line is fast EMA minus slow EMA; the source sets the signal line to the
MACD line itself and the histogram to their difference. -/
def calculateMACD (prices : List ℚ) (fastLength slowLength signalLength : ℕ) :
    Option MACDResult :=
  if prices.length < max fastLength slowLength + signalLength then none
  else
    match calculateEMA prices fastLength, calculateEMA prices slowLength with
    | some fastEMA, some slowEMA =>
      let macdLine := fastEMA - slowEMA
      let signalLine := macdLine
      let histogram := macdLine - signalLine
      some { macd := macdLine, signal := signalLine, histogram := histogram }
    | _, _ => none

/-!
## Portfolio Ledger

Embedding of `Asset` and `Portfolio` (src/unnamed/part_006).  Mutation of
`this` becomes explicit state passing: a method that can `throw` returns
the state at exit together with `Except.error` (the source throws all
occur before the first mutation, and the embedding mirrors the statement
order, so the exit state on an error path is the entry state).  UI-only
fields (name, color, icon, chart data) and timestamps are omitted: no
ledger operation reads or writes them.
-/

/-- Transaction record as built by `Asset.buy` / `Asset.sell`
(part_006 lines 84-90 and 106-112). -/
structure Transaction where
  txType : String
  symbol : String
  assetAmount : ℚ
  usdAmount : ℚ
  price : ℚ
deriving DecidableEq, Repr

/-- Tradable asset: ledger-relevant fields of the `Asset` class
(part_006 lines 16-33). -/
structure Asset where
  symbol : String
  price : ℚ
  amount : ℚ
deriving DecidableEq, Repr

/-- Embeds `Asset.buy` (part_006 lines 76-91): throw on non-positive
amount, otherwise credit `usdAmount / price` to the holding. -/
def Asset.buy (a : Asset) (usdAmount : ℚ) : Asset × Except String Transaction :=
  if usdAmount ≤ 0 then (a, Except.error "Invalid amount")
  else
    let amountToBuy := usdAmount / a.price
    ({ a with amount := a.amount + amountToBuy },
     Except.ok { txType := "BUY", symbol := a.symbol, assetAmount := amountToBuy,
                 usdAmount := usdAmount, price := a.price })

/-- Embeds `Asset.sell` (part_006 lines 98-113): throw on non-positive
amount or amount exceeding the holding, otherwise debit the holding. -/
def Asset.sell (a : Asset) (assetAmount : ℚ) : Asset × Except String Transaction :=
  if assetAmount ≤ 0 ∨ a.amount < assetAmount then (a, Except.error "Invalid amount")
  else
    let usdAmount := assetAmount * a.price
    ({ a with amount := a.amount - assetAmount },
     Except.ok { txType := "SELL", symbol := a.symbol, assetAmount := assetAmount,
                 usdAmount := usdAmount, price := a.price })

/-- Embeds `Asset.getMarketValue` (part_006 lines 58-69).  The source
guards against NaN/infinite components; in exact rational arithmetic
every value is finite, so the guard is always passed. -/
def Asset.getMarketValue (a : Asset) : ℚ := a.amount * a.price

/-- History entry as built by `Portfolio.recordTransaction`
(part_006 lines 467-481): the transaction plus the portfolio value after
it (timestamp omitted). -/
structure HistoryEntry where
  tx : Transaction
  portfolioValueAfter : ℚ
deriving DecidableEq, Repr

/-- Ledger-relevant fields of the `Portfolio` class (part_006 lines
262-279).  The symbol-to-asset map becomes an association list; the
selected-asset pointer, value history and observer list are omitted: no
operation of the verified claims reads them. -/
structure Portfolio where
  usdBalance : ℚ
  initialInvestment : ℚ
  assets : List (String × Asset)
  history : List HistoryEntry
deriving DecidableEq, Repr

/-- Property lookup `this.assets[symbol]` on the asset map. -/
def findAsset : List (String × Asset) → String → Option Asset
  | [], _ => none
  | (k, a) :: rest, symbol => if k = symbol then some a else findAsset rest symbol

/-- Embeds `Portfolio.getAsset` (part_006 lines 298-300). -/
def Portfolio.getAsset (p : Portfolio) (symbol : String) : Option Asset :=
  findAsset p.assets symbol

/-- In-place mutation of the asset stored under `symbol`. -/
def setAssetList (l : List (String × Asset)) (symbol : String) (a : Asset) :
    List (String × Asset) :=
  l.map (fun kv => if kv.1 = symbol then (kv.1, a) else kv)

def Portfolio.setAsset (p : Portfolio) (symbol : String) (a : Asset) : Portfolio :=
  { p with assets := setAssetList p.assets symbol a }

/-- Embeds `Portfolio.getTotalValue` (part_006 lines 505-523): USD
balance plus the market value of every asset.  The NaN/finiteness guards
of the source are always passed in exact rational arithmetic. -/
def Portfolio.getTotalValue (p : Portfolio) : ℚ :=
  p.usdBalance + (p.assets.map (fun kv => kv.2.getMarketValue)).sum

/-- Embeds `Portfolio.recordTransaction` (part_006 lines 467-481): append
the entry, then keep only the last 100 entries. -/
def Portfolio.recordTransaction (p : Portfolio) (t : Transaction) : Portfolio :=
  let h := p.history ++ [{ tx := t, portfolioValueAfter := p.getTotalValue }]
  { p with history := if 100 < h.length then sliceLast 100 h else h }

/-- Embeds `Portfolio.buyAsset` (part_006 lines 330-356), in source
statement order: amount check, balance check, asset lookup, `asset.buy`,
balance debit, history append. -/
def Portfolio.buyAsset (p : Portfolio) (symbol : String) (usdAmount : ℚ) :
    Portfolio × Except String Transaction :=
  if usdAmount ≤ 0 then (p, Except.error "Amount must be greater than 0")
  else if p.usdBalance < usdAmount then (p, Except.error "Insufficient USD balance")
  else
    match p.getAsset symbol with
    | none => (p, Except.error "Asset not found")
    | some asset =>
      match asset.buy usdAmount with
      | (a2, Except.error e) => (p.setAsset symbol a2, Except.error e)
      | (a2, Except.ok tx) =>
        let p1 := p.setAsset symbol a2
        let p2 := { p1 with usdBalance := p1.usdBalance - usdAmount }
        (p2.recordTransaction tx, Except.ok tx)

/-- Embeds `Portfolio.sellAsset` (part_006 lines 364-386), in source
statement order: asset lookup, amount check, `asset.sell`, balance
credit, history append. -/
def Portfolio.sellAsset (p : Portfolio) (symbol : String) (assetAmount : ℚ) :
    Portfolio × Except String Transaction :=
  match p.getAsset symbol with
  | none => (p, Except.error "Asset not found")
  | some asset =>
    if assetAmount ≤ 0 ∨ asset.amount < assetAmount then
      (p, Except.error "Invalid amount")
    else
      match asset.sell assetAmount with
      | (a2, Except.error e) => (p.setAsset symbol a2, Except.error e)
      | (a2, Except.ok tx) =>
        let p1 := p.setAsset symbol a2
        let p2 := { p1 with usdBalance := p1.usdBalance + tx.usdAmount }
        (p2.recordTransaction tx, Except.ok tx)

/-!
## JS number semantics for ROI

`Portfolio.getROI` (part_006 lines 529-532) divides by
`this.initialInvestment` with no zero guard, so the IEEE behaviour of
division by zero is the point of claim C1.  `JsNum` captures an IEEE
double restricted to the values that can occur there: a finite rational,
the two infinities, or NaN. -/
inductive JsNum where
  | nan : JsNum
  | inf : JsNum
  | ninf : JsNum
  | fin : ℚ → JsNum
deriving DecidableEq, Repr

/-- IEEE division of two finite doubles: division by zero gives NaN for
a zero numerator and a signed infinity otherwise. -/
def jsDivFin (a b : ℚ) : JsNum :=
  if b = 0 then
    if a = 0 then JsNum.nan else if 0 < a then JsNum.inf else JsNum.ninf
  else JsNum.fin (a / b)

/-- IEEE multiplication of a double by a finite double. -/
def JsNum.mulFin (x : JsNum) (c : ℚ) : JsNum :=
  match x with
  | JsNum.nan => JsNum.nan
  | JsNum.inf => if c = 0 then JsNum.nan else if 0 < c then JsNum.inf else JsNum.ninf
  | JsNum.ninf => if c = 0 then JsNum.nan else if 0 < c then JsNum.ninf else JsNum.inf
  | JsNum.fin a => JsNum.fin (a * c)

/-- Embeds `Portfolio.getROI` (part_006 lines 529-532):
`(currentValue - initialInvestment) / initialInvestment * 100` with no
guard on a zero `initialInvestment`.  Both operands of the division are
finite (the total value and the stored initial investment are plain
rationals in the state), so `jsDivFin` covers exactly the cases the
source can reach. -/
def Portfolio.getROI (p : Portfolio) : JsNum :=
  (jsDivFin (p.getTotalValue - p.initialInvestment) p.initialInvestment).mulFin 100

/-!
## Price Generator

`updatePrice` in the price worker (src/unnamed/part_005 lines 327-379)
computes `newPrice = asset.price * (1 + totalChange)` with
`totalChange = change + additionalFactor`, and returns
`+newPrice.toFixed(8)`.  `Asset.updatePrice` (part_006 lines 40-52) is
the same computation with a zero additional factor.  The random draws
`change` and `additionalFactor` are universally quantified inputs here.
-/

/-- Rounding to 8 decimal digits, the effect of `+x.toFixed(8)`:
round-half-up on the decimal value, which is the tie rule of
`Number.prototype.toFixed` (the larger of two equally near candidates). -/
def toFixed8 (q : ℚ) : ℚ := (round (q * 10 ^ 8) : ℚ) / 10 ^ 8

/-- The new price produced by one generator tick (part_005 lines 368-374):
the old price scaled by one plus the total change, rounded to 8 decimal
digits. -/
def updatePriceCalc (price change additionalFactor : ℚ) : ℚ :=
  toFixed8 (price * (1 + (change + additionalFactor)))

/-!
## Asset Series Store

Embedding of the per-asset chart update in `Store.dispatch` for
`UPDATE_PRICES` (src/unnamed/part_007 lines 116-217).  Time labels are
modelled as naturals; the payload fields and the random fallbacks are
inputs of each tick.  `open` is a Lean keyword, so that array is named
`openL`; the remaining names follow the source.
-/

/-- One entry of the `UPDATE_PRICES` payload, after the `||` fallbacks
for missing volume/OHLC have been resolved (the fallback draws are part
of the quantified input). -/
structure TickInput where
  label : ℕ
  price : ℚ
  volume : ℚ
  openv : ℚ
  high : ℚ
  low : ℚ
  close : ℚ
deriving Repr

/-- The per-asset `chartData` object of the store (part_007 lines
124-135): the eight arrays created at initialization, plus `sma`, which
the source only creates once 20 prices exist, hence an `Option`. -/
structure StoreChart where
  labels : List ℕ
  price : List ℚ
  volume : List ℚ
  openL : List ℚ
  high : List ℚ
  low : List ℚ
  close : List ℚ
  sma : Option (List (Option ℚ))
  rsi : List (Option ℚ)
deriving Repr

/-- The `chartData` initializer of part_007 lines 124-135: every array
empty, `rsi` present (and therefore truthy) from the start, no `sma`
key. -/
def storeChartInit : StoreChart :=
  { labels := [], price := [], volume := [], openL := [], high := [], low := [],
    close := [], sma := none, rsi := [] }

/-- One price tick of the store for one asset (part_007 lines 137-214):
push label, price, volume and OHLC; append the 20-period SMA (creating
the array null-padded on first use); append the inline 14-period RSI
(the `rsi` array exists from initialization, and an empty JS array is
truthy, so the source always takes the push branch); finally truncate
every array to the last 100 entries once `labels` exceeds 100. -/
def storeStep (cd : StoreChart) (inp : TickInput) : StoreChart :=
  let labels := cd.labels ++ [inp.label]
  let price := cd.price ++ [inp.price]
  let volume := cd.volume ++ [inp.volume]
  let openL := cd.openL ++ [inp.openv]
  let high := cd.high ++ [inp.high]
  let low := cd.low ++ [inp.low]
  let close := cd.close ++ [inp.close]
  let sma :=
    if 20 ≤ price.length then
      let smaValues := sliceLast 20 price
      let smaVal := smaValues.sum / (smaValues.length : ℚ)
      match cd.sma with
      | none => some (List.replicate (price.length - 1) none ++ [some smaVal])
      | some s => some (s ++ [some smaVal])
    else
      match cd.sma with
      | some s => some (s ++ [none])
      | none => none
  let rsi :=
    if 14 ≤ price.length then
      let rsiPrices := sliceLast 15 price
      let changes := List.zipWith (fun a b => a - b) (rsiPrices.drop 1) rsiPrices
      let gains := changes.map (fun c => if 0 < c then c else 0)
      let losses := changes.map (fun c => if c < 0 then |c| else 0)
      let avgGain := gains.sum / 14
      let avgLoss := losses.sum / 14
      let r := if avgLoss = 0 then (100 : ℚ) else 100 - 100 / (1 + avgGain / avgLoss)
      cd.rsi ++ [some r]
    else cd.rsi ++ [none]
  if 100 < labels.length then
    { labels := sliceLast 100 labels, price := sliceLast 100 price,
      volume := sliceLast 100 volume, openL := sliceLast 100 openL,
      high := sliceLast 100 high, low := sliceLast 100 low,
      close := sliceLast 100 close, sma := sma.map (sliceLast 100),
      rsi := sliceLast 100 rsi }
  else
    { labels := labels, price := price, volume := volume, openL := openL,
      high := high, low := low, close := close, sma := sma, rsi := rsi }

/-- The store chart after `n` ticks with inputs `inputs 0, ..., inputs (n-1)`. -/
def storeRun (inputs : ℕ → TickInput) : ℕ → StoreChart
  | 0 => storeChartInit
  | n + 1 => storeStep (storeRun inputs n) (inputs n)

/-!
Embedding of the legacy chart store of `CryptoGame.handlePriceUpdate`
(src/models/CryptoGame.js lines 211-225), which is also cited by claim
C6: it pushes to five parallel arrays and truncates at 50 points, not
100.
-/

/-- The per-crypto `cryptoChartData` object of `CryptoGame` (lines
204-210): labels, price, SMA, RSI and portfolio-value arrays. -/
structure CGChart where
  labels : List ℕ
  price : List ℚ
  sma : List (Option ℚ)
  rsi : List (Option ℚ)
  portfolio : List ℚ
deriving Repr

/-- The initializer of CryptoGame.js lines 204-210: one point in every
array (RSI seeded with 50). -/
def cgChartInit (price0 value0 : ℚ) : CGChart :=
  { labels := [0], price := [price0], sma := [none], rsi := [some 50],
    portfolio := [value0] }

/-- One tick of `CryptoGame.handlePriceUpdate` (lines 213-224): push
label and price, push `Calculations.calculateSMA(price, 10)` and
`Calculations.calculateRSI(price, 14)` over the array including the new
point, push the portfolio value, and truncate every array to the last 50
entries once `labels` exceeds 50. -/
def cgStep (cd : CGChart) (label : ℕ) (price value : ℚ) : CGChart :=
  let priceArr := cd.price ++ [price]
  let cd2 : CGChart :=
    { labels := cd.labels ++ [label], price := priceArr,
      sma := cd.sma ++ [calculateSMA priceArr 10],
      rsi := cd.rsi ++ [calculateRSI priceArr 14],
      portfolio := cd.portfolio ++ [value] }
  if 50 < cd2.labels.length then
    { labels := sliceLast 50 cd2.labels, price := sliceLast 50 cd2.price,
      sma := sliceLast 50 cd2.sma, rsi := sliceLast 50 cd2.rsi,
      portfolio := sliceLast 50 cd2.portfolio }
  else cd2

/-- The CryptoGame chart after `n` ticks at constant price 1 and
constant portfolio value 10000, starting from the initializer. -/
def cgRun : ℕ → CGChart
  | 0 => cgChartInit 1 10000
  | n + 1 => cgStep (cgRun n) (n + 1) 1 10000

/-!
## RSI Strategy

Embedding of `RSIStrategy.evaluate` (src/src/strategies/RSIStrategy.js
lines 24-76).  The strategy instance state that the method reads is
passed explicitly; the result is the returned signal (if any) together
with the updated `lastSignalIndex`.
-/

/-- A trade signal as produced by `RSIStrategy.evaluate`: SELL carries an
asset amount, BUY a USD amount; both carry the current price (reason
string and indicator snapshot omitted). -/
inductive TradeSignal where
  | sell : ℚ → ℚ → TradeSignal
  | buy : ℚ → ℚ → TradeSignal
deriving DecidableEq, Repr

/-- Parameters of the RSI strategy (RSIStrategy.js lines 13-18). -/
structure RSIParams where
  period : ℕ
  overbought : ℚ
  oversold : ℚ
  cooldownPeriod : ℤ
deriving Repr

/-- Embeds `RSIStrategy.evaluate` (RSIStrategy.js lines 24-76) for an
asset whose chart data exists.  The guard `if (!rsi) return null` is a
JS falsiness test: it fires when the RSI is `null` AND when it is the
number 0, and the embedding mirrors both cases.  The cooldown check
compares `prices.length - lastSignalIndex` with the cooldown period.
`currentPrice` is the last element of the price array (the price array
is non-empty whenever the RSI is non-null). -/
def rsiEvaluate (isActive : Bool) (params : RSIParams) (lastSignalIndex : ℤ)
    (prices : List ℚ) (assetAmount usdBalance : ℚ) :
    Option TradeSignal × ℤ :=
  if !isActive then (none, lastSignalIndex)
  else
    match calculateRSI prices params.period with
    | none => (none, lastSignalIndex)
    | some rsi =>
      if rsi = 0 then (none, lastSignalIndex)
      else if (prices.length : ℤ) - lastSignalIndex ≤ params.cooldownPeriod then
        (none, lastSignalIndex)
      else
        let currentPrice := prices.getLastD 0
        if params.overbought ≤ rsi then
          let sellAmount := assetAmount * (25 / 100)
          if 0 < sellAmount then
            (some (TradeSignal.sell sellAmount currentPrice), (prices.length : ℤ) - 1)
          else (none, lastSignalIndex)
        else if rsi ≤ params.oversold then
          let usdAvailable := usdBalance * (25 / 100)
          if 10 ≤ usdAvailable then
            (some (TradeSignal.buy usdAvailable currentPrice), (prices.length : ℤ) - 1)
          else (none, lastSignalIndex)
        else (none, lastSignalIndex)

/-!
## Auxiliary definitions for the verification
-/

/-- The portfolio produced by `new Portfolio(0)`: zero balance, zero
initial investment, no assets, empty history. -/
def zeroInitPortfolio : Portfolio :=
  { usdBalance := 0, initialInvestment := 0, assets := [], history := [] }

/-- A sample asset and portfolio for concrete witnesses: BTC at price
40000 with no holding, 10000 USD cash. -/
def btcAsset : Asset := { symbol := "BTC", price := 40000, amount := 0 }

def samplePortfolio : Portfolio :=
  { usdBalance := 10000, initialInvestment := 10000,
    assets := [("BTC", btcAsset)], history := [] }

/-- The state invariant of claim C3: non-negative cash, and every asset
in the map has a non-negative holding and a strictly positive price. -/
def GoodState (p : Portfolio) : Prop :=
  0 ≤ p.usdBalance ∧ ∀ kv ∈ p.assets, 0 ≤ kv.2.amount ∧ 0 < kv.2.price

/-- One manual or strategy trade against the ledger, as dispatched by
`EXECUTE_TRADE` (part_007 lines 106-114): a buy or a sell by symbol and
amount. -/
inductive TradeOp where
  | buy : String → ℚ → TradeOp
  | sell : String → ℚ → TradeOp

/-- The portfolio after one operation: the exit state of the call,
whether it succeeded or threw. -/
def applyOp (p : Portfolio) (op : TradeOp) : Portfolio :=
  match op with
  | TradeOp.buy s x => (p.buyAsset s x).1
  | TradeOp.sell s amt => (p.sellAsset s amt).1

/-- The portfolio after a finite sequence of buy/sell operations. -/
def runOps (p : Portfolio) (ops : List TradeOp) : Portfolio := ops.foldl applyOp p

/-- A strictly falling 15-price series: every delta in the RSI window is
negative, so RSI evaluates to exactly 0. -/
def c9Prices : List ℚ := [15, 14, 13, 12, 11, 10, 9, 8, 7, 6, 5, 4, 3, 2, 1]

/-- The default RSI strategy parameters (RSIStrategy.js lines 13-18). -/
def c9Params : RSIParams :=
  { period := 14, overbought := 70, oversold := 30, cooldownPeriod := 6 }

/-- The sequence of all labels pushed during the first `n` ticks. -/
def allLabels (inputs : ℕ → TickInput) (n : ℕ) : List ℕ :=
  (List.range n).map (fun i => (inputs i).label)

/-- Invariant of the store chart after `n` ticks: every always-present
array holds exactly the most recent `min n 100` entries, evicting oldest
first (stated in full for the labels array), and the `sma` array is
absent before the 20th tick and index-aligned afterwards. -/
def StoreInv (inputs : ℕ → TickInput) (n : ℕ) (cd : StoreChart) : Prop :=
  cd.labels = sliceLast 100 (allLabels inputs n) ∧
  cd.labels.length = min n 100 ∧
  cd.price.length = min n 100 ∧
  cd.volume.length = min n 100 ∧
  cd.openL.length = min n 100 ∧
  cd.high.length = min n 100 ∧
  cd.low.length = min n 100 ∧
  cd.close.length = min n 100 ∧
  cd.rsi.length = min n 100 ∧
  ((n < 20 ∧ cd.sma = none) ∨
    (20 ≤ n ∧ ∃ s, cd.sma = some s ∧ s.length = min n 100))

/-- Constant inputs used to instantiate the series-store witness. -/
def c6Inputs : ℕ → TickInput := fun i =>
  { label := i, price := 1, volume := 1, openv := 1, high := 1, low := 1, close := 1 }

/-!
## Theorems
-/

section ListTheorems

theorem sliceLast_length (k : ℕ) (l : List α) :
    (sliceLast k l).length = min k l.length := by
  simp only [sliceLast, List.length_drop]
  omega

theorem sliceLast_of_length_le (k : ℕ) (l : List α) (h : l.length ≤ k) :
    sliceLast k l = l := by
  simp only [sliceLast]
  rw [Nat.sub_eq_zero_of_le h, List.drop_zero]

end ListTheorems



section IndicatorTheorems

/-- C7: for every price sequence of length at least period+1,
`calculateRSI` returns a value in [0, 100]; it returns exactly 100 when
all sample-to-sample deltas in the trailing window are non-negative with
at least one positive, and exactly 0 when all deltas are non-positive
with at least one negative; for shorter sequences it returns null.
(The all-non-negative hypothesis alone already forces 100; the
at-least-one-positive hypothesis is stated for conformance with the
claim and is not needed by the proof.) -/
theorem claimC7_rsi_range_and_extremes (prices : List ℚ) (len : ℕ) :
    (prices.length < len + 1 → calculateRSI prices len = none) ∧
    (len + 1 ≤ prices.length →
      ∃ r, calculateRSI prices len = some r ∧ 0 ≤ r ∧ r ≤ 100 ∧
        ((∀ d ∈ rsiChanges prices len, 0 ≤ d) →
          (∃ d ∈ rsiChanges prices len, 0 < d) → r = 100) ∧
        ((∀ d ∈ rsiChanges prices len, d ≤ 0) →
          (∃ d ∈ rsiChanges prices len, d < 0) → r = 0)) := by
  constructor
  · intro h
    simp only [calculateRSI, if_pos h]
  · intro h
    have hnot : ¬ prices.length < len + 1 := by omega
    simp only [calculateRSI, if_neg hnot]
    by_cases hloss :
        ((rsiChanges prices len).filter (fun c => c < 0)).map (fun c => |c|) = []
    · refine ⟨100, ?_, by norm_num, by norm_num, fun _ _ => rfl, ?_⟩
      · simp [hloss]
      · rintro _ ⟨d, hd, hdneg⟩
        exfalso
        have : d ∈ (rsiChanges prices len).filter (fun c => c < 0) := by
          rw [List.mem_filter]
          exact ⟨hd, by simpa using hdneg⟩
        rw [List.map_eq_nil_iff] at hloss
        rw [hloss] at this
        exact absurd this (List.not_mem_nil d)
    · have hlosslen :
          (((rsiChanges prices len).filter (fun c => c < 0)).map (fun c => |c|)).length
            ≠ 0 := by
        intro h0
        exact hloss (List.length_eq_zero.mp h0)
      by_cases hgain : (rsiChanges prices len).filter (fun c => 0 < c) = []
      · refine ⟨0, ?_, le_refl 0, by norm_num, ?_, fun _ _ => rfl⟩
        · rw [if_neg hlosslen]
          simp [hgain]
        · intro hall _
          exfalso
          apply hloss
          rw [List.map_eq_nil_iff, List.filter_eq_nil_iff]
          intro d hd
          simp only [decide_eq_true_eq, not_lt]
          exact hall d hd
      · have hgainlen : ¬ ((rsiChanges prices len).filter (fun c => 0 < c)).length = 0 := by
          intro h0
          exact hgain (List.length_eq_zero.mp h0)
        refine ⟨min 100 (max 0 (100 - 100 /
            (1 + ((rsiChanges prices len).filter (fun c => 0 < c)).sum / (len : ℚ) /
              ((((rsiChanges prices len).filter (fun c => c < 0)).map
                  (fun c => |c|)).sum / (len : ℚ))))), ?_, ?_, ?_, ?_, ?_⟩
        · rw [if_neg hlosslen, if_neg hgainlen]
        · exact le_min (by norm_num) (le_max_left 0 _)
        · exact min_le_left _ _
        · intro hall _
          exfalso
          apply hloss
          rw [List.map_eq_nil_iff, List.filter_eq_nil_iff]
          intro d hd
          simp only [decide_eq_true_eq, not_lt]
          exact hall d hd
        · intro hall _
          exfalso
          apply hgain
          rw [List.filter_eq_nil_iff]
          intro d hd
          simp only [decide_eq_true_eq, not_lt]
          exact hall d hd

/-- Witness for C7 at a concrete input: a strictly rising 15-price
series with period 14 yields RSI exactly 100. -/
theorem claimC7_witness :
    ∃ r, calculateRSI [1, 2, 3, 4, 5, 6, 7, 8, 9, 10, 11, 12, 13, 14, 15] 14 = some r ∧
      0 ≤ r ∧ r ≤ 100 ∧
      ((∀ d ∈ rsiChanges [1, 2, 3, 4, 5, 6, 7, 8, 9, 10, 11, 12, 13, 14, 15] 14, 0 ≤ d) →
        (∃ d ∈ rsiChanges [1, 2, 3, 4, 5, 6, 7, 8, 9, 10, 11, 12, 13, 14, 15] 14, 0 < d) →
        r = 100) ∧
      ((∀ d ∈ rsiChanges [1, 2, 3, 4, 5, 6, 7, 8, 9, 10, 11, 12, 13, 14, 15] 14, d ≤ 0) →
        (∃ d ∈ rsiChanges [1, 2, 3, 4, 5, 6, 7, 8, 9, 10, 11, 12, 13, 14, 15] 14, d < 0) →
        r = 0) :=
  (claimC7_rsi_range_and_extremes
    [1, 2, 3, 4, 5, 6, 7, 8, 9, 10, 11, 12, 13, 14, 15] 14).2 (by norm_num)

/-- C8: whenever `calculateMACD` returns a non-null result, the signal
field equals the macd field (fast EMA minus slow EMA) and the histogram
field equals 0. -/
theorem claimC8_macd_signal_and_histogram (prices : List ℚ)
    (fastLength slowLength signalLength : ℕ) (r : MACDResult)
    (h : calculateMACD prices fastLength slowLength signalLength = some r) :
    r.signal = r.macd ∧ r.histogram = 0 := by
  unfold calculateMACD at h
  by_cases hlen : prices.length < max fastLength slowLength + signalLength
  · rw [if_pos hlen] at h
    exact absurd h (by simp)
  · rw [if_neg hlen] at h
    cases hf : calculateEMA prices fastLength with
    | none => rw [hf] at h; exact absurd h (by simp)
    | some fastEMA =>
      cases hs : calculateEMA prices slowLength with
      | none => rw [hf, hs] at h; exact absurd h (by simp)
      | some slowEMA =>
        rw [hf, hs] at h
        simp only [Option.some.injEq] at h
        rw [← h]
        exact ⟨rfl, sub_self _⟩

/-- Witness for C8 at a concrete input: on the one-price series `[2]`
with fast = slow = 1 and signal length 0, the MACD result is the zero
record, and its signal equals its macd while its histogram is 0. -/
theorem claimC8_witness :
    MACDResult.signal { macd := 0, signal := 0, histogram := 0 } =
      MACDResult.macd { macd := 0, signal := 0, histogram := 0 } ∧
    MACDResult.histogram { macd := 0, signal := 0, histogram := 0 } = 0 :=
  claimC8_macd_signal_and_histogram [2] 1 1 0 { macd := 0, signal := 0, histogram := 0 }
    (by norm_num [calculateMACD, calculateEMA, calculateSMA, sliceLast])

/-- Every element of an elementwise difference of two constant lists is
zero. -/
theorem zipWith_sub_const {c : ℚ} : ∀ (l1 l2 : List ℚ),
    (∀ x ∈ l1, x = c) → (∀ x ∈ l2, x = c) →
    ∀ d ∈ List.zipWith (fun a b => a - b) l1 l2, d = 0
  | [], _, _, _ => by intro d hd; simp at hd
  | _ :: _, [], _, _ => by intro d hd; simp at hd
  | a :: l1, b :: l2, h1, h2 => by
    intro d hd
    rw [List.zipWith_cons_cons] at hd
    rcases List.mem_cons.mp hd with h | h
    · rw [h, h1 a (List.mem_cons_self a l1), h2 b (List.mem_cons_self b l2), sub_self]
    · exact zipWith_sub_const l1 l2 (fun x hx => h1 x (List.mem_cons_of_mem a hx))
        (fun x hx => h2 x (List.mem_cons_of_mem b hx)) d h

/-- C10: for every constant price sequence (all samples equal) of length
at least period+1, `calculateRSI` returns 100: a window with no losses is
reported as maximally overbought even though it also has no gains. -/
theorem claimC10_constant_rsi (prices : List ℚ) (c : ℚ) (len : ℕ)
    (hc : ∀ x ∈ prices, x = c) (hlen : len + 1 ≤ prices.length) :
    calculateRSI prices len = some 100 := by
  have hnot : ¬ prices.length < len + 1 := by omega
  have hw : ∀ x ∈ sliceLast (len + 1) prices, x = c := by
    intro x hx
    exact hc x (List.drop_subset _ _ hx)
  have hzero : ∀ d ∈ rsiChanges prices len, d = 0 := by
    intro d hd
    exact zipWith_sub_const _ _
      (fun x hx => hw x (List.drop_subset _ _ hx)) hw d hd
  have hfilter : (rsiChanges prices len).filter (fun c => c < 0) = [] := by
    rw [List.filter_eq_nil_iff]
    intro d hd
    rw [hzero d hd]
    simp
  simp [calculateRSI, if_neg hnot, hfilter]

/-- Witness for C10 at a concrete input: fifteen samples of the constant
price 7 with period 14 yield RSI 100. -/
theorem claimC10_witness : calculateRSI (List.replicate 15 7) 14 = some 100 :=
  claimC10_constant_rsi (List.replicate 15 7) 7 14
    (fun x hx => List.eq_of_mem_replicate hx) (by simp)

end IndicatorTheorems

section PriceGeneratorTheorems

/-- C5 counterexample: a strictly positive price of 10⁻⁹ with a zero
delta and zero adjustment is rounded to exactly 0 by the 8-decimal
rounding, so a tick can produce a non-positive price. -/
theorem claimC5_counterexample :
    (0 : ℚ) < 1 / 1000000000 ∧ updatePriceCalc (1 / 1000000000) 0 0 = 0 := by
  constructor
  · norm_num
  · unfold updatePriceCalc toFixed8
    rw [round_eq]
    norm_num

/-- C5 amended: the rounded new price is strictly positive if and only
if the exact product `oldPrice * (1 + delta + adjustment)`, scaled by
10⁸, is at least one half — equivalently, the tick keeps the price
positive exactly when the un-rounded new price is at least 5·10⁻⁹;
below that threshold rounding yields 0, and a total change of −1 or less
yields a zero or negative price. -/
theorem claimC5_amended_positivity (price change additionalFactor : ℚ) :
    0 < updatePriceCalc price change additionalFactor ↔
      1 / 2 ≤ price * (1 + (change + additionalFactor)) * 10 ^ 8 := by
  unfold updatePriceCalc toFixed8
  rw [round_eq]
  constructor
  · intro h
    have h1 : 0 < (⌊price * (1 + (change + additionalFactor)) * 10 ^ 8 + 1 / 2⌋ : ℚ) := by
      by_contra hle
      push_neg at hle
      have hdiv : (⌊price * (1 + (change + additionalFactor)) * 10 ^ 8 + 1 / 2⌋ : ℚ) /
          10 ^ 8 ≤ 0 := div_nonpos_of_nonpos_of_nonneg hle (by norm_num)
      linarith
    have h2 : (1 : ℤ) ≤ ⌊price * (1 + (change + additionalFactor)) * 10 ^ 8 + 1 / 2⌋ := by
      have : (0 : ℤ) < ⌊price * (1 + (change + additionalFactor)) * 10 ^ 8 + 1 / 2⌋ := by
        exact_mod_cast h1
      omega
    have h3 : (1 : ℚ) ≤ price * (1 + (change + additionalFactor)) * 10 ^ 8 + 1 / 2 := by
      exact_mod_cast Int.le_floor.mp h2
    linarith
  · intro h
    have h2 : (1 : ℤ) ≤ ⌊price * (1 + (change + additionalFactor)) * 10 ^ 8 + 1 / 2⌋ :=
      Int.le_floor.mpr (by push_cast; linarith)
    have h3 : (0 : ℚ) < (⌊price * (1 + (change + additionalFactor)) * 10 ^ 8 + 1 / 2⌋ : ℚ) := by
      exact_mod_cast Int.lt_of_lt_of_le Int.zero_lt_one h2
    exact div_pos h3 (by norm_num)

end PriceGeneratorTheorems

section ROITheorems

/-- C1 counterexample: for the portfolio created with an initial balance
of 0, `getROI()` evaluates `(0 - 0) / 0 * 100`, which is NaN under JS
division semantics — not 0 as the claim states.  There is no zero guard
in `Portfolio.getROI` (part_006 lines 529-532). -/
theorem claimC1_counterexample :
    zeroInitPortfolio.initialInvestment = 0 ∧
    zeroInitPortfolio.getROI = JsNum.nan ∧
    zeroInitPortfolio.getROI ≠ JsNum.fin 0 := by
  refine ⟨rfl, ?_, ?_⟩ <;>
    simp [zeroInitPortfolio, Portfolio.getROI, Portfolio.getTotalValue,
      jsDivFin, JsNum.mulFin]

/-- C1 amended: for every portfolio whose initialInvestment is 0,
`getROI()` never returns 0 — it returns NaN when the total value is 0
and a signed infinity otherwise, because the division by
`initialInvestment` is unguarded. -/
theorem claimC1_amended_roi_zero_investment (p : Portfolio)
    (h : p.initialInvestment = 0) :
    p.getROI ≠ JsNum.fin 0 ∧
    p.getROI = (if p.getTotalValue = 0 then JsNum.nan
      else if 0 < p.getTotalValue then JsNum.inf else JsNum.ninf) := by
  unfold Portfolio.getROI jsDivFin
  rw [h, sub_zero, if_pos rfl]
  by_cases h0 : p.getTotalValue = 0
  · rw [if_pos h0]
    exact ⟨by simp [JsNum.mulFin], by simp [JsNum.mulFin]⟩
  · rw [if_neg h0]
    by_cases hpos : 0 < p.getTotalValue
    · rw [if_pos hpos]
      exact ⟨by norm_num [JsNum.mulFin]; decide, by norm_num [JsNum.mulFin]⟩
    · rw [if_neg hpos]
      exact ⟨by norm_num [JsNum.mulFin]; decide, by norm_num [JsNum.mulFin]⟩

/-- Witness for the amended C1 at a concrete input: the zero-initialized
portfolio. -/
theorem claimC1_witness :
    zeroInitPortfolio.getROI ≠ JsNum.fin 0 ∧
    zeroInitPortfolio.getROI = (if zeroInitPortfolio.getTotalValue = 0 then JsNum.nan
      else if 0 < zeroInitPortfolio.getTotalValue then JsNum.inf else JsNum.ninf) :=
  claimC1_amended_roi_zero_investment zeroInitPortfolio rfl

end ROITheorems

section LedgerTheorems

/-- C2: `buyAsset(symbol, cashAmount)` throws if and only if the amount
is non-positive, or exceeds the cash balance, or the symbol is not in
the asset map; and whenever it throws, the entire portfolio state (cash
balance, holdings, transaction history) is unchanged.  In the source all
throws precede the first mutation, which the embedding mirrors by
returning the state at exit. -/
theorem claimC2_buyAsset_failure_atomic (p : Portfolio) (symbol : String) (x : ℚ) :
    ((∃ e, (p.buyAsset symbol x).2 = Except.error e) ↔
      (x ≤ 0 ∨ p.usdBalance < x ∨ p.getAsset symbol = none)) ∧
    (∀ e, (p.buyAsset symbol x).2 = Except.error e → (p.buyAsset symbol x).1 = p) := by
  unfold Portfolio.buyAsset
  by_cases hx : x ≤ 0
  · rw [if_pos hx]
    exact ⟨⟨fun _ => Or.inl hx, fun _ => ⟨_, rfl⟩⟩, fun _ _ => rfl⟩
  · rw [if_neg hx]
    by_cases hb : p.usdBalance < x
    · rw [if_pos hb]
      exact ⟨⟨fun _ => Or.inr (Or.inl hb), fun _ => ⟨_, rfl⟩⟩, fun _ _ => rfl⟩
    · rw [if_neg hb]
      cases hfind : p.getAsset symbol with
      | none =>
        exact ⟨⟨fun _ => Or.inr (Or.inr rfl), fun _ => ⟨_, rfl⟩⟩, fun _ _ => rfl⟩
      | some asset =>
        have hbuy : asset.buy x =
            ({ asset with amount := asset.amount + x / asset.price },
             Except.ok (Transaction.mk "BUY" asset.symbol (x / asset.price) x
               asset.price)) := by
          unfold Asset.buy
          rw [if_neg hx]
        simp only [hbuy]
        refine ⟨⟨?_, ?_⟩, ?_⟩
        · rintro ⟨e, he⟩
          simp at he
        · rintro (h | h | h)
          · exact absurd h hx
          · exact absurd h hb
          · exact absurd h (by simp)
        · intro e he
          simp at he

/-- Witness for C2 at a concrete input: buying a negative amount throws
and leaves the sample portfolio unchanged. -/
theorem claimC2_witness : (samplePortfolio.buyAsset "BTC" (-5)).1 = samplePortfolio :=
  (claimC2_buyAsset_failure_atomic samplePortfolio "BTC" (-5)).2
    "Amount must be greater than 0" (by norm_num [Portfolio.buyAsset])

/-- Updating the asset stored under a symbol makes the lookup of that
symbol return the new asset (when the symbol was present). -/
theorem findAsset_setAssetList (l : List (String × Asset)) (symbol : String) (a : Asset) :
    findAsset (setAssetList l symbol a) symbol =
      (findAsset l symbol).map (fun _ => a) := by
  induction l with
  | nil => rfl
  | cons kv rest ih =>
    by_cases hk : kv.1 = symbol
    · rw [setAssetList, List.map_cons, if_pos hk]
      simp [findAsset, hk]
    · rw [setAssetList, List.map_cons, if_neg hk]
      simp only [findAsset, if_neg hk]
      exact ih

theorem recordTransaction_assets (p : Portfolio) (t : Transaction) :
    (p.recordTransaction t).assets = p.assets := rfl

theorem recordTransaction_usdBalance (p : Portfolio) (t : Transaction) :
    (p.recordTransaction t).usdBalance = p.usdBalance := rfl

/-- Characterization of a successful `buyAsset`: when the amount checks
pass and the symbol resolves, the call returns a BUY transaction of
`x / price` units, debits exactly `x` from the cash balance, and updates
only the bought asset in the asset map. -/
theorem buyAsset_ok_spec (p : Portfolio) (symbol : String) (a : Asset) (x : ℚ)
    (hfind : p.getAsset symbol = some a) (hx0 : ¬ x ≤ 0)
    (hb0 : ¬ p.usdBalance < x) :
    ∃ p1, p.buyAsset symbol x =
      (p1, Except.ok (Transaction.mk "BUY" a.symbol (x / a.price) x a.price)) ∧
      p1.usdBalance = p.usdBalance - x ∧
      p1.assets = setAssetList p.assets symbol
        { a with amount := a.amount + x / a.price } := by
  simp only [Portfolio.buyAsset, if_neg hx0, if_neg hb0, hfind, Asset.buy]
  refine ⟨_, rfl, ?_, ?_⟩
  · rw [recordTransaction_usdBalance]
    rfl
  · rw [recordTransaction_assets]
    rfl

/-- Characterization of a successful `sellAsset`: when the symbol
resolves and the amount check passes, the call returns a SELL
transaction, credits `amount * price` to the cash balance, and updates
only the sold asset in the asset map. -/
theorem sellAsset_ok_spec (p : Portfolio) (symbol : String) (a : Asset) (amt : ℚ)
    (hfind : p.getAsset symbol = some a)
    (hcond : ¬ (amt ≤ 0 ∨ a.amount < amt)) :
    ∃ p1, p.sellAsset symbol amt =
      (p1, Except.ok (Transaction.mk "SELL" a.symbol amt (amt * a.price) a.price)) ∧
      p1.usdBalance = p.usdBalance + amt * a.price ∧
      p1.assets = setAssetList p.assets symbol
        { a with amount := a.amount - amt } := by
  simp only [Portfolio.sellAsset, hfind, if_neg hcond, Asset.sell]
  refine ⟨_, rfl, ?_, ?_⟩
  · rw [recordTransaction_usdBalance]
    rfl
  · rw [recordTransaction_assets]
    rfl

/-- C4: for every portfolio with a non-negative holding in some known
symbol with positive price, and every cash amount 0 < x within the cash
balance, `buyAsset(symbol, x)` succeeds, and immediately selling the
asset amount the buy produced at the unchanged price succeeds and
restores the cash balance exactly (exact rational arithmetic). -/
theorem claimC4_buy_sell_roundtrip (p : Portfolio) (symbol : String) (a : Asset) (x : ℚ)
    (hfind : p.getAsset symbol = some a) (hprice : 0 < a.price)
    (hamount : 0 ≤ a.amount) (hx : 0 < x) (hb : x ≤ p.usdBalance) :
    ∃ p1 tx1, p.buyAsset symbol x = (p1, Except.ok tx1) ∧
      ∃ p2 tx2, p1.sellAsset symbol tx1.assetAmount = (p2, Except.ok tx2) ∧
        p2.usdBalance = p.usdBalance := by
  have hx0 : ¬ x ≤ 0 := not_le.mpr hx
  have hb0 : ¬ p.usdBalance < x := not_lt.mpr hb
  have hamt : 0 < x / a.price := div_pos hx hprice
  obtain ⟨p1, hbuyeq, hbal1, hassets1⟩ := buyAsset_ok_spec p symbol a x hfind hx0 hb0
  have hget1 : p1.getAsset symbol = some { a with amount := a.amount + x / a.price } := by
    unfold Portfolio.getAsset at hfind ⊢
    rw [hassets1, findAsset_setAssetList, hfind]
    rfl
  have hcond : ¬ (x / a.price ≤ 0 ∨
      ({ a with amount := a.amount + x / a.price } : Asset).amount < x / a.price) := by
    refine not_or.mpr ⟨not_le.mpr hamt, not_lt.mpr ?_⟩
    exact (le_add_iff_nonneg_left (x / a.price)).mpr hamount
  obtain ⟨p2, hselleq, hbal2, _⟩ :=
    sellAsset_ok_spec p1 symbol { a with amount := a.amount + x / a.price }
      (x / a.price) hget1 hcond
  refine ⟨p1, _, hbuyeq, p2, _, hselleq, ?_⟩
  rw [hbal2, hbal1, div_mul_cancel₀ x (ne_of_gt hprice)]
  ring

/-- A successful lookup finds a pair of the map whose key is the symbol
looked up. -/
theorem findAsset_mem (l : List (String × Asset)) (s : String) (a : Asset)
    (h : findAsset l s = some a) : (s, a) ∈ l := by
  induction l with
  | nil => exact absurd h (by simp [findAsset])
  | cons kv rest ih =>
    rw [findAsset] at h
    by_cases hk : kv.1 = s
    · rw [if_pos hk] at h
      have ha : kv.2 = a := Option.some.inj h
      have : kv = (s, a) := by
        cases kv
        simp_all
      exact this ▸ List.mem_cons_self kv rest
    · rw [if_neg hk] at h
      exact List.mem_cons_of_mem kv (ih h)

/-- A buy operation (successful or failing) preserves the ledger
invariant. -/
theorem goodState_buyAsset (p : Portfolio) (symbol : String) (x : ℚ)
    (h : GoodState p) : GoodState (p.buyAsset symbol x).1 := by
  by_cases hx : x ≤ 0
  · simp only [Portfolio.buyAsset, if_pos hx]
    exact h
  · by_cases hb : p.usdBalance < x
    · simp only [Portfolio.buyAsset, if_neg hx, if_pos hb]
      exact h
    · cases hfind : p.getAsset symbol with
      | none =>
        simp only [Portfolio.buyAsset, if_neg hx, if_neg hb, hfind]
        exact h
      | some a =>
        obtain ⟨ha0, hap⟩ := h.2 (symbol, a) (findAsset_mem p.assets symbol a hfind)
        obtain ⟨p1, heq, hbal, hassets⟩ := buyAsset_ok_spec p symbol a x hfind hx hb
        rw [heq]
        constructor
        · rw [hbal]
          have := not_lt.mp hb
          linarith
        · intro kv hkv
          rw [hassets] at hkv
          obtain ⟨kv0, hkv0, hfkv⟩ := List.mem_map.mp hkv
          by_cases hk : kv0.1 = symbol
          · rw [if_pos hk] at hfkv
            rw [← hfkv]
            refine ⟨?_, hap⟩
            have hdiv : 0 < x / a.price := div_pos (not_le.mp hx) hap
            simp only []
            linarith
          · rw [if_neg hk] at hfkv
            rw [← hfkv]
            exact h.2 kv0 hkv0

/-- A sell operation (successful or failing) preserves the ledger
invariant. -/
theorem goodState_sellAsset (p : Portfolio) (symbol : String) (amt : ℚ)
    (h : GoodState p) : GoodState (p.sellAsset symbol amt).1 := by
  cases hfind : p.getAsset symbol with
  | none =>
    simp only [Portfolio.sellAsset, hfind]
    exact h
  | some a =>
    by_cases hcond : amt ≤ 0 ∨ a.amount < amt
    · simp only [Portfolio.sellAsset, hfind, if_pos hcond]
      exact h
    · obtain ⟨ha0, hap⟩ := h.2 (symbol, a) (findAsset_mem p.assets symbol a hfind)
      have hamt : 0 < amt := not_le.mp (not_or.mp hcond).1
      have hle : amt ≤ a.amount := not_lt.mp (not_or.mp hcond).2
      obtain ⟨p1, heq, hbal, hassets⟩ := sellAsset_ok_spec p symbol a amt hfind hcond
      rw [heq]
      constructor
      · rw [hbal]
        have : 0 ≤ amt * a.price := le_of_lt (mul_pos hamt hap)
        linarith [h.1]
      · intro kv hkv
        rw [hassets] at hkv
        obtain ⟨kv0, hkv0, hfkv⟩ := List.mem_map.mp hkv
        by_cases hk : kv0.1 = symbol
        · rw [if_pos hk] at hfkv
          rw [← hfkv]
          refine ⟨?_, hap⟩
          simp only []
          linarith
        · rw [if_neg hk] at hfkv
          rw [← hfkv]
          exact h.2 kv0 hkv0

/-- Under the invariant, the derived total value is non-negative (in
particular it is a well-defined rational, hence finite). -/
theorem getTotalValue_nonneg (p : Portfolio) (h : GoodState p) :
    0 ≤ p.getTotalValue := by
  refine add_nonneg h.1 (List.sum_nonneg ?_)
  intro v hv
  obtain ⟨kv, hkv, hfv⟩ := List.mem_map.mp hv
  obtain ⟨h0, hp⟩ := h.2 kv hkv
  rw [← hfv]
  exact mul_nonneg h0 (le_of_lt hp)

/-- C3: starting from a portfolio with non-negative cash, non-negative
holdings and positive (finite, being rational) prices, after any finite
sequence of buyAsset/sellAsset operations — successful or failing — the
cash balance is non-negative, every holding is non-negative, and
`getTotalValue()` is a well-defined (finite) rational, indeed
non-negative.  In this exact-arithmetic embedding every rational is
finite, so the provable content of finiteness is that the total is a
well-defined non-negative value. -/
theorem claimC3_ledger_invariant (p : Portfolio) (ops : List TradeOp)
    (h : GoodState p) :
    GoodState (runOps p ops) ∧ 0 ≤ (runOps p ops).getTotalValue := by
  suffices hg : GoodState (runOps p ops) from
    ⟨hg, getTotalValue_nonneg _ hg⟩
  induction ops generalizing p with
  | nil => exact h
  | cons op ops ih =>
    have hstep : GoodState (applyOp p op) := by
      cases op with
      | buy s x => exact goodState_buyAsset p s x h
      | sell s amt => exact goodState_sellAsset p s amt h
    exact ih (applyOp p op) hstep

/-- Witness for C3 at a concrete input: the sample portfolio run through
a successful buy, a failing over-sell, a successful sell and an invalid
(negative) buy keeps the invariant and a non-negative total value. -/
theorem claimC3_witness :
    GoodState (runOps samplePortfolio
      [TradeOp.buy "BTC" 4000, TradeOp.sell "BTC" 7, TradeOp.sell "BTC" (1 / 20),
       TradeOp.buy "BTC" (-3)]) ∧
    0 ≤ (runOps samplePortfolio
      [TradeOp.buy "BTC" 4000, TradeOp.sell "BTC" 7, TradeOp.sell "BTC" (1 / 20),
       TradeOp.buy "BTC" (-3)]).getTotalValue :=
  claimC3_ledger_invariant samplePortfolio
    [TradeOp.buy "BTC" 4000, TradeOp.sell "BTC" 7, TradeOp.sell "BTC" (1 / 20),
     TradeOp.buy "BTC" (-3)]
    (by
      constructor
      · norm_num [samplePortfolio]
      · intro kv hkv
        simp only [samplePortfolio, List.mem_singleton] at hkv
        rw [hkv]
        norm_num [btcAsset])

/-- Witness for C4 at the concrete scenario of the specification:
starting cash 10000, BTC at 40000, buy 4000 USD worth, then sell the
resulting 0.1 BTC back: the cash balance returns to 10000. -/
theorem claimC4_witness :
    ∃ p1 tx1, samplePortfolio.buyAsset "BTC" 4000 = (p1, Except.ok tx1) ∧
      ∃ p2 tx2, p1.sellAsset "BTC" tx1.assetAmount = (p2, Except.ok tx2) ∧
        p2.usdBalance = samplePortfolio.usdBalance :=
  claimC4_buy_sell_roundtrip samplePortfolio "BTC" btcAsset 4000
    rfl (by norm_num [btcAsset]) (by norm_num [btcAsset]) (by norm_num)
    (by norm_num [samplePortfolio])

end LedgerTheorems

section StrategyTheorems

/-- C9 (code bug): on a strictly falling series the RSI is exactly 0 —
maximally oversold, below the oversold threshold 30 — the strategy is
active and outside its cooldown window, and 25% of the cash balance
(2500) is well above the $10 minimum, yet `evaluate` returns no signal:
the guard `if (!rsi) return null` treats the RSI value 0 as missing
because 0 is falsy in JS, so the promised BUY signal is never emitted. -/
theorem claimC9_rsi_zero_no_signal :
    calculateRSI c9Prices 14 = some 0 ∧
    ¬ ((c9Prices.length : ℤ) - (-1) ≤ c9Params.cooldownPeriod) ∧
    (10 : ℚ) ≤ 10000 * (25 / 100) ∧
    rsiEvaluate true c9Params (-1) c9Prices 0 10000 = (none, -1) := by
  have hrsi : calculateRSI c9Prices 14 = some 0 := by
    norm_num [calculateRSI, rsiChanges, sliceLast, c9Prices]
  refine ⟨hrsi, by norm_num [c9Prices, c9Params], by norm_num, ?_⟩
  unfold rsiEvaluate
  rw [show c9Params.period = 14 from rfl, hrsi]
  norm_num

end StrategyTheorems

section SeriesStoreTheorems

/-- Appending one element under either branch of a conditional push adds
exactly one to the length. -/
theorem length_ite_append {α : Type} (b : Prop) [Decidable b] (l : List α) (x y : α) :
    (if b then l ++ [x] else l ++ [y]).length = l.length + 1 := by
  split <;> simp

/-- Truncating to the last `k` elements commutes with having already
truncated to the last `k` before an append. -/
theorem sliceLast_append_one (k : ℕ) (hk : 0 < k) (xs : List α) (y : α) :
    sliceLast k (sliceLast k xs ++ [y]) = sliceLast k (xs ++ [y]) := by
  unfold sliceLast
  rw [List.drop_append_of_le_length (by simp [List.length_append]; omega),
      List.drop_append_of_le_length (by simp [List.length_append]; omega)]
  congr 1
  rw [List.drop_drop]
  congr 1
  simp only [List.length_append, List.length_drop, List.length_cons, List.length_nil]
  omega

theorem allLabels_length (inputs : ℕ → TickInput) (n : ℕ) :
    (allLabels inputs n).length = n := by
  simp [allLabels]

theorem allLabels_succ (inputs : ℕ → TickInput) (n : ℕ) :
    allLabels inputs (n + 1) = allLabels inputs n ++ [(inputs n).label] := by
  simp [allLabels, List.range_succ]

theorem storeStep_labels (cd : StoreChart) (inp : TickInput) :
    (storeStep cd inp).labels =
      if 100 < (cd.labels ++ [inp.label]).length
      then sliceLast 100 (cd.labels ++ [inp.label])
      else cd.labels ++ [inp.label] := by
  simp only [storeStep]
  by_cases hc : 100 < (cd.labels ++ [inp.label]).length
  · rw [if_pos hc, if_pos hc]
  · rw [if_neg hc, if_neg hc]

theorem storeStep_price_length (cd : StoreChart) (inp : TickInput) :
    (storeStep cd inp).price.length =
      if 100 < (cd.labels ++ [inp.label]).length
      then min 100 (cd.price.length + 1)
      else cd.price.length + 1 := by
  simp only [storeStep]
  by_cases hc : 100 < (cd.labels ++ [inp.label]).length
  · rw [if_pos hc, if_pos hc]
    simp [sliceLast_length]
  · rw [if_neg hc, if_neg hc]
    simp

theorem storeStep_volume_length (cd : StoreChart) (inp : TickInput) :
    (storeStep cd inp).volume.length =
      if 100 < (cd.labels ++ [inp.label]).length
      then min 100 (cd.volume.length + 1)
      else cd.volume.length + 1 := by
  simp only [storeStep]
  by_cases hc : 100 < (cd.labels ++ [inp.label]).length
  · rw [if_pos hc, if_pos hc]
    simp [sliceLast_length]
  · rw [if_neg hc, if_neg hc]
    simp

theorem storeStep_openL_length (cd : StoreChart) (inp : TickInput) :
    (storeStep cd inp).openL.length =
      if 100 < (cd.labels ++ [inp.label]).length
      then min 100 (cd.openL.length + 1)
      else cd.openL.length + 1 := by
  simp only [storeStep]
  by_cases hc : 100 < (cd.labels ++ [inp.label]).length
  · rw [if_pos hc, if_pos hc]
    simp [sliceLast_length]
  · rw [if_neg hc, if_neg hc]
    simp

theorem storeStep_high_length (cd : StoreChart) (inp : TickInput) :
    (storeStep cd inp).high.length =
      if 100 < (cd.labels ++ [inp.label]).length
      then min 100 (cd.high.length + 1)
      else cd.high.length + 1 := by
  simp only [storeStep]
  by_cases hc : 100 < (cd.labels ++ [inp.label]).length
  · rw [if_pos hc, if_pos hc]
    simp [sliceLast_length]
  · rw [if_neg hc, if_neg hc]
    simp

theorem storeStep_low_length (cd : StoreChart) (inp : TickInput) :
    (storeStep cd inp).low.length =
      if 100 < (cd.labels ++ [inp.label]).length
      then min 100 (cd.low.length + 1)
      else cd.low.length + 1 := by
  simp only [storeStep]
  by_cases hc : 100 < (cd.labels ++ [inp.label]).length
  · rw [if_pos hc, if_pos hc]
    simp [sliceLast_length]
  · rw [if_neg hc, if_neg hc]
    simp

theorem storeStep_close_length (cd : StoreChart) (inp : TickInput) :
    (storeStep cd inp).close.length =
      if 100 < (cd.labels ++ [inp.label]).length
      then min 100 (cd.close.length + 1)
      else cd.close.length + 1 := by
  simp only [storeStep]
  by_cases hc : 100 < (cd.labels ++ [inp.label]).length
  · rw [if_pos hc, if_pos hc]
    simp [sliceLast_length]
  · rw [if_neg hc, if_neg hc]
    simp

theorem storeStep_rsi_length (cd : StoreChart) (inp : TickInput) :
    (storeStep cd inp).rsi.length =
      if 100 < (cd.labels ++ [inp.label]).length
      then min 100 (cd.rsi.length + 1)
      else cd.rsi.length + 1 := by
  simp only [storeStep]
  by_cases hc : 100 < (cd.labels ++ [inp.label]).length
  · rw [if_pos hc, if_pos hc, sliceLast_length, length_ite_append]
  · rw [if_neg hc, if_neg hc, length_ite_append]

theorem storeStep_sma_none (cd : StoreChart) (inp : TickInput)
    (h20 : ¬ 20 ≤ (cd.price ++ [inp.price]).length) (hsma : cd.sma = none) :
    (storeStep cd inp).sma = none := by
  simp only [storeStep]
  by_cases hc : 100 < (cd.labels ++ [inp.label]).length
  · rw [if_pos hc, if_neg h20, hsma]
    rfl
  · rw [if_neg hc, if_neg h20, hsma]

theorem storeStep_sma_create (cd : StoreChart) (inp : TickInput)
    (h20 : 20 ≤ (cd.price ++ [inp.price]).length)
    (hc : ¬ 100 < (cd.labels ++ [inp.label]).length) (hsma : cd.sma = none) :
    ∃ s, (storeStep cd inp).sma = some s ∧
      s.length = (cd.price ++ [inp.price]).length := by
  simp only [storeStep]
  rw [if_neg hc, if_pos h20, hsma]
  refine ⟨_, rfl, ?_⟩
  simp only [List.length_append, List.length_replicate, List.length_cons,
    List.length_nil]
  omega

theorem storeStep_sma_push (cd : StoreChart) (inp : TickInput) (s0 : List (Option ℚ))
    (h20 : 20 ≤ (cd.price ++ [inp.price]).length) (hsma : cd.sma = some s0) :
    ∃ s, (storeStep cd inp).sma = some s ∧
      s.length = if 100 < (cd.labels ++ [inp.label]).length
        then min 100 (s0.length + 1) else s0.length + 1 := by
  simp only [storeStep]
  by_cases hc : 100 < (cd.labels ++ [inp.label]).length
  · rw [if_pos hc, if_pos hc, if_pos h20, hsma]
    exact ⟨_, rfl, by simp [sliceLast_length]⟩
  · rw [if_neg hc, if_neg hc, if_pos h20, hsma]
    exact ⟨_, rfl, by simp⟩

theorem storeStep_inv (inputs : ℕ → TickInput) (n : ℕ) (cd : StoreChart)
    (h : StoreInv inputs n cd) :
    StoreInv inputs (n + 1) (storeStep cd (inputs n)) := by
  obtain ⟨hlab, hlabl, hpr, hvo, hop, hhi, hlo, hcl, hrs, hsma⟩ := h
  have hlen : (cd.labels ++ [(inputs n).label]).length = min n 100 + 1 := by
    simp [hlabl]
  have hplen : (cd.price ++ [(inputs n).price]).length = min n 100 + 1 := by
    simp [hpr]
  rcases le_or_lt 100 n with hn | hn
  · -- truncation fires: all arrays stay at exactly 100 entries
    have hmin : min n 100 = 100 := Nat.min_eq_right hn
    have hmin1 : min (n + 1) 100 = 100 := Nat.min_eq_right (Nat.le_succ_of_le hn)
    rw [hmin] at hlen hplen hlabl hpr hvo hop hhi hlo hcl hrs
    have hc : 100 < (cd.labels ++ [(inputs n).label]).length := by
      rw [hlen]
      norm_num
    refine ⟨?_, ?_, ?_, ?_, ?_, ?_, ?_, ?_, ?_, ?_⟩
    · rw [storeStep_labels, if_pos hc, hlab, sliceLast_append_one 100 (by norm_num),
        ← allLabels_succ]
    · rw [storeStep_labels, if_pos hc, sliceLast_length, hlen, hmin1]
      decide
    · rw [storeStep_price_length, if_pos hc, hpr, hmin1]
      decide
    · rw [storeStep_volume_length, if_pos hc, hvo, hmin1]
      decide
    · rw [storeStep_openL_length, if_pos hc, hop, hmin1]
      decide
    · rw [storeStep_high_length, if_pos hc, hhi, hmin1]
      decide
    · rw [storeStep_low_length, if_pos hc, hlo, hmin1]
      decide
    · rw [storeStep_close_length, if_pos hc, hcl, hmin1]
      decide
    · rw [storeStep_rsi_length, if_pos hc, hrs, hmin1]
      decide
    · rcases hsma with ⟨hn20, _⟩ | ⟨hn20, s0, hs0, hs0l⟩
      · exact absurd (Nat.lt_of_le_of_lt hn hn20) (by norm_num)
      · have h20 : 20 ≤ (cd.price ++ [(inputs n).price]).length := by
          rw [hplen]
          norm_num
        obtain ⟨s, hs, hsl⟩ := storeStep_sma_push cd (inputs n) s0 h20 hs0
        refine Or.inr ⟨Nat.le_succ_of_le hn20, s, hs, ?_⟩
        rw [hsl, if_pos hc, hs0l, hmin, hmin1]
        decide
  · -- no truncation: every array grows by one
    have hmin : min n 100 = n := Nat.min_eq_left (le_of_lt hn)
    have hmin1 : min (n + 1) 100 = n + 1 := Nat.min_eq_left hn
    rw [hmin] at hlen hplen hlabl hpr hvo hop hhi hlo hcl hrs
    have hc : ¬ 100 < (cd.labels ++ [(inputs n).label]).length := by
      rw [hlen]
      exact Nat.not_lt.mpr hn
    refine ⟨?_, ?_, ?_, ?_, ?_, ?_, ?_, ?_, ?_, ?_⟩
    · rw [storeStep_labels, if_neg hc, hlab,
        sliceLast_of_length_le 100 (allLabels inputs n)
          (by rw [allLabels_length]; exact le_of_lt hn),
        ← allLabels_succ,
        sliceLast_of_length_le 100 (allLabels inputs (n + 1))
          (by rw [allLabels_length]; exact hn)]
    · rw [storeStep_labels, if_neg hc, List.length_append, hlabl, hmin1]
      rfl
    · rw [storeStep_price_length, if_neg hc, hpr, hmin1]
    · rw [storeStep_volume_length, if_neg hc, hvo, hmin1]
    · rw [storeStep_openL_length, if_neg hc, hop, hmin1]
    · rw [storeStep_high_length, if_neg hc, hhi, hmin1]
    · rw [storeStep_low_length, if_neg hc, hlo, hmin1]
    · rw [storeStep_close_length, if_neg hc, hcl, hmin1]
    · rw [storeStep_rsi_length, if_neg hc, hrs, hmin1]
    · rcases hsma with ⟨hn20, hnone⟩ | ⟨hn20, s0, hs0, hs0l⟩
      · rcases Nat.lt_or_ge (n + 1) 20 with hcreate | hcreate
        · have h20 : ¬ 20 ≤ (cd.price ++ [(inputs n).price]).length := by
            rw [hplen]
            exact Nat.not_le.mpr hcreate
          exact Or.inl ⟨hcreate, storeStep_sma_none cd (inputs n) h20 hnone⟩
        · have h20 : 20 ≤ (cd.price ++ [(inputs n).price]).length := by
            rw [hplen]
            exact hcreate
          obtain ⟨s, hs, hsl⟩ := storeStep_sma_create cd (inputs n) h20 hc hnone
          refine Or.inr ⟨hcreate, s, hs, ?_⟩
          rw [hsl, hplen, hmin1]
      · have h20 : 20 ≤ (cd.price ++ [(inputs n).price]).length := by
          rw [hplen]
          exact Nat.le_succ_of_le hn20
        obtain ⟨s, hs, hsl⟩ := storeStep_sma_push cd (inputs n) s0 h20 hs0
        refine Or.inr ⟨Nat.le_succ_of_le hn20, s, hs, ?_⟩
        rw [hsl, if_neg hc, hs0l, hmin, hmin1]

theorem storeRun_inv (inputs : ℕ → TickInput) :
    ∀ n, StoreInv inputs n (storeRun inputs n) := by
  intro n
  induction n with
  | zero =>
    refine ⟨?_, ?_, ?_, ?_, ?_, ?_, ?_, ?_, ?_, Or.inl ⟨by omega, rfl⟩⟩ <;>
      simp [storeRun, storeChartInit, allLabels, sliceLast]
  | succ n ih => exact storeStep_inv inputs n (storeRun inputs n) ih

theorem cgStep_labels_length (cd : CGChart) (label : ℕ) (price value : ℚ) :
    (cgStep cd label price value).labels.length =
      if 50 < (cd.labels ++ [label]).length
      then min 50 (cd.labels.length + 1)
      else cd.labels.length + 1 := by
  simp only [cgStep]
  by_cases hc : 50 < (cd.labels ++ [label]).length
  · rw [if_pos hc, if_pos hc]
    simp [sliceLast_length]
  · rw [if_neg hc, if_neg hc]
    simp

/-- The CryptoGame chart store holds `min (n+1) 50` points after `n`
ticks: its cap is 50, not 100. -/
theorem cgRun_labels_length : ∀ n, (cgRun n).labels.length = min (n + 1) 50 := by
  intro n
  induction n with
  | zero => simp [cgRun, cgChartInit]
  | succ n ih =>
    show (cgStep (cgRun n) (n + 1) 1 10000).labels.length = _
    rw [cgStep_labels_length]
    have hlen : ((cgRun n).labels ++ [n + 1]).length = min (n + 1) 50 + 1 := by
      simp [ih]
    rw [hlen, ih]
    rcases le_or_lt 50 (n + 1) with h | h
    · rw [Nat.min_eq_right h, if_pos (by norm_num),
        Nat.min_eq_right (Nat.le_succ_of_le h)]
      decide
    · rw [Nat.min_eq_left (le_of_lt h), if_neg (Nat.not_lt.mpr h),
        Nat.min_eq_left h]

/-- C6 counterexample: the claim is quantified over every asset series
store and cites `CryptoGame.handlePriceUpdate` (CryptoGame.js lines
211-225), but that store truncates at 50 points, so after 150 ticks its
arrays have length 50, not 100. -/
theorem claimC6_counterexample :
    (cgRun 150).labels.length = 50 ∧ (cgRun 150).labels.length ≠ 100 := by
  have h := cgRun_labels_length 150
  exact ⟨by rw [h]; decide, by rw [h]; decide⟩

/-- C6 amended: for the Store's per-asset chart data
(`Store.dispatch UPDATE_PRICES`), after every batch update all parallel
arrays have equal length (the `sma` array exists only from the 20th tick
onwards, created null-padded so it is index-aligned), and after 150 or
more ticks every array has length exactly 100 with the oldest entries
evicted first; the legacy CryptoGame chart store instead caps at 50
points, so after 150 ticks its arrays have length 50 (see the
counterexample). -/
theorem claimC6_amended_series_alignment (inputs : ℕ → TickInput) (n : ℕ) :
    ((storeRun inputs n).price.length = (storeRun inputs n).labels.length ∧
     (storeRun inputs n).volume.length = (storeRun inputs n).labels.length ∧
     (storeRun inputs n).openL.length = (storeRun inputs n).labels.length ∧
     (storeRun inputs n).high.length = (storeRun inputs n).labels.length ∧
     (storeRun inputs n).low.length = (storeRun inputs n).labels.length ∧
     (storeRun inputs n).close.length = (storeRun inputs n).labels.length ∧
     (storeRun inputs n).rsi.length = (storeRun inputs n).labels.length ∧
     (∀ s, (storeRun inputs n).sma = some s →
        s.length = (storeRun inputs n).labels.length)) ∧
    (150 ≤ n →
      (storeRun inputs n).labels.length = 100 ∧
      (∃ s, (storeRun inputs n).sma = some s ∧ s.length = 100) ∧
      (storeRun inputs n).labels = sliceLast 100 (allLabels inputs n)) := by
  obtain ⟨hlab, hlabl, hpr, hvo, hop, hhi, hlo, hcl, hrs, hsma⟩ := storeRun_inv inputs n
  refine ⟨⟨by rw [hpr, hlabl], by rw [hvo, hlabl], by rw [hop, hlabl],
    by rw [hhi, hlabl], by rw [hlo, hlabl], by rw [hcl, hlabl],
    by rw [hrs, hlabl], ?_⟩, ?_⟩
  · intro s hs
    rcases hsma with ⟨_, hnone⟩ | ⟨_, s0, hs0, hl⟩
    · rw [hnone] at hs
      exact absurd hs (by simp)
    · rw [hs0] at hs
      rw [← Option.some.inj hs, hl, hlabl]
  · intro h150
    have h100 : 100 ≤ n := le_trans (by norm_num) h150
    have hmin : min n 100 = 100 := Nat.min_eq_right h100
    refine ⟨by rw [hlabl, hmin], ?_, hlab⟩
    rcases hsma with ⟨hn20, _⟩ | ⟨_, s0, hs0, hl⟩
    · exact absurd (Nat.lt_of_le_of_lt h100 hn20) (by norm_num)
    · exact ⟨s0, hs0, by rw [hl, hmin]⟩

/-- Witness for the amended C6 at a concrete input: after exactly 150
constant-price ticks the store chart holds 100 aligned points. -/
theorem claimC6_witness :
    (storeRun c6Inputs 150).labels.length = 100 ∧
    (∃ s, (storeRun c6Inputs 150).sma = some s ∧ s.length = 100) ∧
    (storeRun c6Inputs 150).labels = sliceLast 100 (allLabels c6Inputs 150) :=
  (claimC6_amended_series_alignment c6Inputs 150).2 (by norm_num)

end SeriesStoreTheorems

end InvestGame
